/-
Verification of the element-resolution and event-correlation core of a
mobile end-to-end test harness.

The development shallowly embeds the TypeScript core:
  - a JSON value model together with an executable JSON parser and
    serializer standing in for the runtime builtins JSON.parse and
    JSON.stringify (numbers are modelled as integers; fractional and
    exponent number literals are outside the model),
  - the recursive JSON subset matcher matchJsonElement, the tree search
    findKeyValueInTree and the entry point containsJsonData,
  - the event storage (dedup by event_num, matched-set bookkeeping) and
    the blocking event wait checkHasEvent,
  - the platform-polymorphic locator PageElement with get and getAll,
  - the per-locator element selection step of waitForElements, and
  - the scroll gesture builder performScroll with its capacity check.

The matcher in the source recurses through values obtained by re-parsing
embedded JSON strings, so its recursion is not structural.  It is embedded
here as a fuel-indexed evaluator; a weight measure on JSON values bounds
the recursion depth, and the stability theorems below show that the
chosen fuel is always sufficient, recovering the defining equations of
the source function.
-/
import Mathlib

/-! ## JSON value model -/

/-- JSON values as produced by the runtime JSON parser.  Numbers are
modelled as integers. -/
inductive Json where
  | null : Json
  | bool : Bool → Json
  | num : Int → Json
  | str : String → Json
  | arr : List Json → Json
  | obj : List (String × Json) → Json
deriving Repr

/-- Mirrors the source helper isPrimitive: true for every value that is
not a JS object, i.e. null and the primitives. -/
def isPrimitive : Json → Bool
  | .null => true
  | .bool _ => true
  | .num _ => true
  | .str _ => true
  | .arr _ => false
  | .obj _ => false

/-- The JS String() conversion as applied to primitive values in the
matcher.  The matcher only ever applies it to primitives, so the value
returned on arrays and objects is irrelevant. -/
def jsPrimString : Json → String
  | .null => "null"
  | .bool true => "true"
  | .bool false => "false"
  | .num n => toString n
  | .str s => s
  | .arr _ => ""
  | .obj _ => ""

/-- First-match lookup in an association list of object fields. -/
def jsonLookup : List (String × Json) → String → Option Json
  | [], _ => none
  | (k, v) :: rest, key => if k == key then some v else jsonLookup rest key

/-- Property lookup on a JSON object, first matching key.  Parsed objects
carry unique keys, so this agrees with JS property access; on any
non-object value property access yields undefined, modelled as none. -/
def jsGetField : Json → String → Option Json
  | .obj kvs, key => jsonLookup kvs key
  | _, _ => none

/-- JS truthy-object test used by containsJsonData: typeof x is object
and x is truthy, i.e. x is an array or a (non-null) object. -/
def isJsObject : Json → Bool
  | .arr _ => true
  | .obj _ => true
  | _ => false

/-- Object.entries: fields of an object, or index-keyed entries of an
array; primitives have no own enumerable entries. -/
def jsEntries : Json → List (String × Json)
  | .obj kvs => kvs
  | .arr xs => (xs.enum.map fun p => (toString p.1, p.2))
  | _ => []

/-! ## Weight measure

The weight of a JSON value bounds the recursion depth of the matcher.
A string weighs a little more than its length so that the value obtained
by parsing a string is strictly lighter than the string itself. -/

mutual
def jweight : Json → Nat
  | .null => 1
  | .bool _ => 1
  | .num _ => 1
  | .str s => s.length + 2
  | .arr xs => 1 + jweightArr xs
  | .obj kvs => 1 + jweightObj kvs

def jweightArr : List Json → Nat
  | [] => 0
  | x :: xs => jweight x + jweightArr xs

def jweightObj : List (String × Json) → Nat
  | [] => 0
  | (k, v) :: kvs => k.length + jweight v + jweightObj kvs
end

/-! ## JSON parser

Executable model of the runtime JSON.parse as wrapped by the source
helper tryParseJSON.  The parser is fuel-indexed (the fuel only bounds
nesting depth; one unit of fuel is spent per nested value), consumes a
character list and returns the parsed value with the unconsumed rest. -/

def isWsChar (c : Char) : Bool :=
  c == ' ' || c == '\t' || c == '\n' || c == '\r'

def skipWs : List Char → List Char
  | [] => []
  | c :: cs => if isWsChar c then skipWs cs else c :: cs

def hexVal (c : Char) : Option Nat :=
  if c.isDigit then some (c.toNat - 48)
  else if 97 ≤ c.toNat && c.toNat ≤ 102 then some (c.toNat - 87)
  else if 65 ≤ c.toNat && c.toNat ≤ 70 then some (c.toNat - 55)
  else none

/-- Single-character escapes accepted inside a JSON string literal. -/
def escChar : Char → Option Char
  | 'n' => some '\n'
  | 't' => some '\t'
  | 'r' => some '\r'
  | 'b' => some (Char.ofNat 8)
  | 'f' => some (Char.ofNat 12)
  | '"' => some '"'
  | '\\' => some '\\'
  | '/' => some '/'
  | _ => none

/-- Parses the body of a string literal after the opening quote, up to
and including the closing quote.  Returns the decoded characters and the
rest of the input. -/
def parseStrBody : Nat → List Char → Option (List Char × List Char)
  | 0, _ => none
  | _, [] => none
  | fuel + 1, c :: cs =>
    if c == '"' then some ([], cs)
    else if c == '\\' then
      match cs with
      | [] => none
      | e :: cs2 =>
        if e == 'u' then
          match cs2 with
          | h1 :: h2 :: h3 :: h4 :: cs3 =>
            match hexVal h1, hexVal h2, hexVal h3, hexVal h4 with
            | some a, some b, some c3, some d =>
              match parseStrBody fuel cs3 with
              | some (content, rest) =>
                some (Char.ofNat (((a * 16 + b) * 16 + c3) * 16 + d) :: content, rest)
              | none => none
            | _, _, _, _ => none
          | _ => none
        else
          match escChar e with
          | some ec =>
            match parseStrBody fuel cs2 with
            | some (content, rest) => some (ec :: content, rest)
            | none => none
          | none => none
    else if c.toNat < 32 then none
    else
      match parseStrBody fuel cs with
      | some (content, rest) => some (c :: content, rest)
      | none => none

/-- Splits a maximal run of decimal digits off the front of the input. -/
def takeDigits : List Char → List Char × List Char
  | [] => ([], [])
  | c :: cs =>
    if c.isDigit then
      let p := takeDigits cs
      (c :: p.1, p.2)
    else ([], c :: cs)

def digitsToNat (ds : List Char) : Nat :=
  ds.foldl (fun acc c => acc * 10 + (c.toNat - 48)) 0

/-- Parses an unsigned run of digits as a JSON integer literal (no
leading zero).  A following fraction or exponent marker makes the parse
fail: fractional numbers are outside this model. -/
def parseNumCore (l : List Char) : Option (Int × List Char) :=
  match takeDigits l with
  | (ds, rest) =>
    match ds with
    | [] => none
    | d :: ds2 =>
      if d == '0' && !ds2.isEmpty then none
      else
        match rest with
        | '.' :: _ => none
        | 'e' :: _ => none
        | 'E' :: _ => none
        | _ => some (Int.ofNat (digitsToNat (d :: ds2)), rest)

/-- Parses an integer JSON number literal with its optional minus
sign. -/
def parseNum (l : List Char) : Option (Int × List Char) :=
  match l with
  | '-' :: l1 => (parseNumCore l1).map fun p => (-p.1, p.2)
  | _ => parseNumCore l

/-- Replaces the value of an existing key, keeping its position, or
appends the binding: the JS semantics of repeated assignment to object
properties, used to model duplicate keys in a JSON object literal. -/
def objUpdate : List (String × Json) → String → Json → List (String × Json)
  | [], k, v => [(k, v)]
  | (k0, v0) :: rest, k, v =>
    if k0 == k then (k0, v) :: rest else (k0, v0) :: objUpdate rest k v

/-- Folds object-literal entries in order through objUpdate, modelling
how JSON.parse materializes an object with duplicate keys. -/
def dedupObjEntries (kvs : List (String × Json)) : List (String × Json) :=
  kvs.foldl (fun acc kv => objUpdate acc kv.1 kv.2) []

mutual
def parseVal : Nat → List Char → Option (Json × List Char)
  | 0, _ => none
  | fuel + 1, l =>
    match skipWs l with
    | [] => none
    | c :: cs =>
      if c == '"' then
        match parseStrBody (cs.length + 1) cs with
        | some (content, rest) => some (.str ⟨content⟩, rest)
        | none => none
      else if c == '{' then
        match skipWs cs with
        | '}' :: rest => some (.obj [], rest)
        | l2 =>
          match parseObjItems fuel l2 with
          | some (kvs, rest) => some (.obj (dedupObjEntries kvs), rest)
          | none => none
      else if c == '[' then
        match skipWs cs with
        | ']' :: rest => some (.arr [], rest)
        | l2 =>
          match parseArrItems fuel l2 with
          | some (xs, rest) => some (.arr xs, rest)
          | none => none
      else if c == 't' then
        match cs with
        | 'r' :: 'u' :: 'e' :: rest => some (.bool true, rest)
        | _ => none
      else if c == 'f' then
        match cs with
        | 'a' :: 'l' :: 's' :: 'e' :: rest => some (.bool false, rest)
        | _ => none
      else if c == 'n' then
        match cs with
        | 'u' :: 'l' :: 'l' :: rest => some (.null, rest)
        | _ => none
      else
        match parseNum (c :: cs) with
        | some (n, rest) => some (.num n, rest)
        | none => none

def parseArrItems : Nat → List Char → Option (List Json × List Char)
  | 0, _ => none
  | fuel + 1, l =>
    match parseVal fuel l with
    | some (v, rest1) =>
      match skipWs rest1 with
      | ',' :: rest2 =>
        match parseArrItems fuel rest2 with
        | some (xs, rest3) => some (v :: xs, rest3)
        | none => none
      | ']' :: rest2 => some ([v], rest2)
      | _ => none
    | none => none

def parseObjItems : Nat → List Char → Option (List (String × Json) × List Char)
  | 0, _ => none
  | fuel + 1, l =>
    match skipWs l with
    | '"' :: cs =>
      match parseStrBody (cs.length + 1) cs with
      | some (key, rest1) =>
        match skipWs rest1 with
        | ':' :: rest2 =>
          match parseVal fuel rest2 with
          | some (v, rest3) =>
            match skipWs rest3 with
            | ',' :: rest4 =>
              match parseObjItems fuel rest4 with
              | some (kvs, rest5) => some ((⟨key⟩, v) :: kvs, rest5)
              | none => none
            | '}' :: rest4 => some ([(⟨key⟩, v)], rest4)
            | _ => none
          | none => none
        | _ => none
      | none => none
    | _ => none
end

/-- Model of tryParseJSON: JSON.parse requiring full consumption of the
input up to trailing whitespace, returning none instead of throwing. -/
def parseJson (s : String) : Option Json :=
  match parseVal (s.length + 1) s.data with
  | some (v, rest) => if (skipWs rest).isEmpty then some v else none
  | none => none

/-! ## JSON serializer

Model of the runtime JSON.stringify, needed where the source serializes
stored event data before re-parsing it inside containsJsonData. -/

def hexDigit (n : Nat) : Char :=
  if n < 10 then Char.ofNat (48 + n) else Char.ofNat (87 + n)

/-- JSON string-literal escaping of one character. -/
def escapeJsonChar (c : Char) : List Char :=
  if c == '"' then ['\\', '"']
  else if c == '\\' then ['\\', '\\']
  else if c == '\n' then ['\\', 'n']
  else if c == '\t' then ['\\', 't']
  else if c == '\r' then ['\\', 'r']
  else if c.toNat == 8 then ['\\', 'b']
  else if c.toNat == 12 then ['\\', 'f']
  else if c.toNat < 32 then
    ['\\', 'u', '0', '0', hexDigit (c.toNat / 16), hexDigit (c.toNat % 16)]
  else [c]

def encodeJsonString (s : String) : String :=
  "\"" ++ ⟨s.data.foldr (fun c acc => escapeJsonChar c ++ acc) []⟩ ++ "\""

mutual
def jsonStringify : Json → String
  | .null => "null"
  | .bool true => "true"
  | .bool false => "false"
  | .num n => toString n
  | .str s => encodeJsonString s
  | .arr xs => "[" ++ stringifyArr xs ++ "]"
  | .obj kvs => "\x7b" ++ stringifyObj kvs ++ "\x7d"

def stringifyArr : List Json → String
  | [] => ""
  | [x] => jsonStringify x
  | x :: y :: xs => jsonStringify x ++ "," ++ stringifyArr (y :: xs)

def stringifyObj : List (String × Json) → String
  | [] => ""
  | [(k, v)] => encodeJsonString k ++ ":" ++ jsonStringify v
  | (k, v) :: kv :: kvs =>
    encodeJsonString k ++ ":" ++ jsonStringify v ++ "," ++ stringifyObj (kv :: kvs)
end

/-! ## JSON subset matcher

Embedding of matchJsonElement.  The source function recurses through
values obtained by parsing embedded JSON strings, which is not a
structural recursion, so the embedding is a fuel-indexed evaluator.  The
measures Mmatch, MobjE, Mall and Many bound the recursion depth, and the
stability theorems below show the fuel chosen by the wrapper
matchJsonElement is always sufficient: the defining equations of the
source function are recovered as theorems. -/

/-- JS String.prototype.includes on character lists. -/
def jsIncludesList (needle : List Char) : List Char → Bool
  | [] => needle.isEmpty
  | c :: rest => needle.isPrefixOf (c :: rest) || jsIncludesList needle rest

/-- JS includes: substring containment. -/
def jsIncludes (hay needle : String) : Bool :=
  jsIncludesList needle.data hay.data

/-- JS startsWith. -/
def jsStartsWith (s p : String) : Bool :=
  p.data.isPrefixOf s.data

/-- JS slice(1): drop the first UTF-16 unit; only applied after a
one-character prefix test. -/
def jsStringTail (s : String) : String :=
  ⟨s.data.tail⟩

/-- The primitive comparison branch of matchJsonElement: both sides
stringified, then wildcard, empty, substring and equality rules in the
order of the source. -/
def matchPrimitiveStrings (ev sv : String) : Bool :=
  if sv == "*" then true
  else if sv == "" then ev == ""
  else if jsStartsWith sv "~" then jsIncludes ev (jsStringTail sv)
  else ev == sv

mutual
/-- Fuel-indexed body of matchJsonElement.  Branch order mirrors the
source: primitive pair, string re-parse, object pair, array pair,
otherwise false.  The string branch falls through to false when the
string does not parse or parses to null, exactly as the source falls
through to the object and array branches that cannot accept a string. -/
def matchFuelElement : Nat → Json → Json → Bool
  | 0, _, _ => false
  | fuel + 1, ev, sv =>
    if isPrimitive ev && isPrimitive sv then
      matchPrimitiveStrings (jsPrimString ev) (jsPrimString sv)
    else
      match ev, sv with
      | .str s, sv =>
        match parseJson s with
        | some .null => false
        | some parsed => matchFuelElement fuel parsed sv
        | none => false
      | .obj evFields, .obj svFields => matchFuelObjEntries fuel evFields svFields
      | .arr es, .arr ps => matchFuelAll fuel es ps
      | _, _ => false

/-- Every pattern field must exist in the candidate object and match. -/
def matchFuelObjEntries : Nat → List (String × Json) → List (String × Json) → Bool
  | 0, _, _ => false
  | _ + 1, _, [] => true
  | fuel + 1, evFields, (k, sval) :: rest =>
    (match jsonLookup evFields k with
     | some v => matchFuelElement fuel v sval
     | none => false) && matchFuelObjEntries fuel evFields rest

/-- Every pattern array element must match some candidate element. -/
def matchFuelAll : Nat → List Json → List Json → Bool
  | 0, _, _ => false
  | _ + 1, _, [] => true
  | fuel + 1, es, p :: ps => matchFuelAny fuel es p && matchFuelAll fuel es ps

/-- Some candidate array element matches the pattern element. -/
def matchFuelAny : Nat → List Json → Json → Bool
  | 0, _, _ => false
  | _ + 1, [], _ => false
  | fuel + 1, e :: es, p => matchFuelElement fuel e p || matchFuelAny fuel es p
end

/-- Depth measure of a matcher call on a value pair. -/
def Mmatch (ev sv : Json) : Nat := 2 * (jweight ev + jweight sv)

/-- Depth measure of an object-entries call. -/
def MobjE (evFields l : List (String × Json)) : Nat :=
  2 * (jweightObj evFields + jweightObj l) + 3

/-- Depth measure of an array-all call. -/
def Mall (es ps : List Json) : Nat := 2 * (jweightArr es + jweightArr ps) + 3

/-- Depth measure of an array-any call. -/
def Many (es : List Json) (p : Json) : Nat := 2 * (jweightArr es + jweight p) + 1

/-- matchJsonElement of the source: the fuel evaluator run with
sufficient fuel. -/
def matchJsonElement (ev sv : Json) : Bool :=
  matchFuelElement (Mmatch ev sv) ev sv

/-! ## Tree search and entry point -/

mutual
/-- findKeyValueInTree of the source: unrestricted recursive descent,
true when any node has a property named key whose value matches. -/
def findKeyValueInTree : Json → String → Json → Bool
  | .arr xs, key, sval => findKeyValueArr xs key sval
  | .obj kvs, key, sval => findKeyValueObj kvs key sval
  | _, _, _ => false

def findKeyValueArr : List Json → String → Json → Bool
  | [], _, _ => false
  | x :: xs, key, sval => findKeyValueInTree x key sval || findKeyValueArr xs key sval

def findKeyValueObj : List (String × Json) → String → Json → Bool
  | [], _, _ => false
  | (k, v) :: kvs, key, sval =>
    ((k == key) && matchJsonElement v sval) || findKeyValueInTree v key sval ||
      findKeyValueObj kvs key sval
end

/-- containsJsonData of the source: parse the event JSON, unwrap the
body string, parse it, unwrap event and data, parse the search JSON and
require every entry of the search object to be found in the data tree.
Every failure along the way yields false rather than an error. -/
def containsJsonData (eventJson searchJson : String) : Bool :=
  match parseJson eventJson with
  | none => false
  | some evDataObj =>
    if !isJsObject evDataObj then false
    else
      match jsGetField evDataObj "body" with
      | some (.str bodyStr) =>
        match parseJson bodyStr with
        | none => false
        | some bodyObj =>
          if !isJsObject bodyObj then false
          else
            match jsGetField bodyObj "event" with
            | some ev =>
              if !isJsObject ev then false
              else
                match jsGetField ev "data" with
                | none => false
                | some dataElement =>
                  match parseJson searchJson with
                  | none => false
                  | some searchObj =>
                    if !isJsObject searchObj then false
                    else
                      (jsEntries searchObj).all fun kv =>
                        findKeyValueInTree dataElement kv.1 kv.2
            | none => false
      | _ => false

/-! ## Telemetry events and storage

Model of the Event and EventData records and of EventStorageImpl: an
append-only event list with deduplication by event_num on add, plus a
set of matched sequence numbers tracked out of band. -/

/-- EventData of the source model: request payload attached to an
event.  Optional fields absent at ingestion are stored as null, which
this model writes as none. -/
structure EventData where
  uri : String
  remoteAddress : Option String
  headers : List (String × List String)
  query : Option String
  body : String
deriving Repr

/-- Event of the source model. -/
structure Event where
  event_time : String
  event_num : Int
  name : String
  data : Option EventData
deriving Repr

/-- The JSON value JSON.stringify sees for an EventData record: its own
enumerable properties in declaration order. -/
def eventDataToJson (d : EventData) : Json :=
  .obj
    [("uri", .str d.uri),
     ("remoteAddress", match d.remoteAddress with | some a => .str a | none => .null),
     ("headers", .obj (d.headers.map fun kv => (kv.1, .arr (kv.2.map Json.str)))),
     ("query", match d.query with | some q => .str q | none => .null),
     ("body", .str d.body)]

/-- JSON.stringify(ev.data) as used by checkHasEvent. -/
def eventDataJsonString (d : EventData) : String :=
  jsonStringify (eventDataToJson d)

/-- EventStorageImpl.eventExists: is some stored event carrying this
sequence number.  The source scans the list backwards as an
optimization; existence does not depend on scan order. -/
def eventExists (events : List Event) (eventNumber : Int) : Bool :=
  events.any fun ev => ev.event_num == eventNumber

/-- EventStorageImpl.addEvents: append each incoming event unless an
event with the same event_num is already stored (checked against the
list as grown so far, as the source pushes while iterating). -/
def addEvents (events : List Event) (newEvents : List Event) : List Event :=
  newEvents.foldl
    (fun acc ev => if eventExists acc ev.event_num then acc else acc ++ [ev]) events

/-- State visible to the event correlator: the stored events of
EventStorageImpl together with its matched sequence-number set (a JS
Set, modelled as the list of inserted numbers). -/
structure EventState where
  events : List Event
  matched : List Int
deriving Repr

/-- The per-event acceptance test of one scan iteration of
checkHasEvent: skip events already matched, require the name, and when
pattern data was supplied require the stringified event data to satisfy
containsJsonData (an event without data never satisfies a pattern). -/
def eventMatchesQuery (st : EventState) (eventName : String) (data : Option String)
    (ev : Event) : Bool :=
  !(st.matched.contains ev.event_num) && ev.name == eventName &&
    (match data with
     | none => true
     | some d =>
       match ev.data with
       | some ed => containsJsonData (eventDataJsonString ed) d
       | none => false)

/-- Timeout failure message of checkHasEvent. -/
def eventTimeoutMsg (eventName : String) (data : Option String)
    (timeoutSec : Nat) : String :=
  match data with
  | some d =>
    "Ожидаемое событие " ++ eventName ++ " с данными " ++ d ++
      " не обнаружено за " ++ toString timeoutSec ++ " секунд."
  | none =>
    "Ожидаемое событие " ++ eventName ++ " не обнаружено за " ++
      toString timeoutSec ++ " секунд."

/-- MobileActions.checkHasEvent over a fixed event log.  The source is a
poll loop that rescans the whole log every 500ms until the deadline;
against an unchanged log every iteration computes the same scan, so the
loop is decided by one scan: the first acceptable event is marked
matched and the call returns, otherwise the deadline passes and the
timeout error is raised.  A non-positive timeout never enters the loop,
exactly as in the source.  The path-versus-literal disambiguation of the
data argument is file-system input and happens before this model: data
here is the resolved pattern string, if any. -/
def checkHasEvent (st : EventState) (eventName : String) (data : Option String)
    (timeoutSec : Nat) : Except String EventState :=
  if timeoutSec == 0 then .error (eventTimeoutMsg eventName data timeoutSec)
  else
    match st.events.find? (eventMatchesQuery st eventName data) with
    | some ev => .ok { st with matched := ev.event_num :: st.matched }
    | none => .error (eventTimeoutMsg eventName data timeoutSec)

/-! ## Locator model -/

/-- Active platform, from shared session configuration. -/
inductive Platform where
  | android
  | ios
deriving DecidableEq, Repr

/-- A WDIO locator of the source: either a bare selector string or a
strategy-value record. -/
inductive Locator where
  | str : String → Locator
  | strategy : String → String → Locator
deriving DecidableEq, Repr

/-- JS truthiness of a Locator value: the empty selector string is
falsy, every other string and every record is truthy. -/
def Locator.isTruthy : Locator → Bool
  | .str s => !(s == "")
  | .strategy _ _ => true

/-- PageElement of the source: per-platform single locator and locator
list, each possibly absent. -/
structure PageElement where
  android : Option Locator
  ios : Option Locator
  androidList : Option (List Locator)
  iosList : Option (List Locator)
deriving Repr

/-- PageElement.get: the single locator for the active platform,
falling back through nullish coalescing to the head of the configured
list. -/
def PageElement.get (e : PageElement) (platform : Platform) : Option Locator :=
  match platform with
  | .android => (e.android.orElse fun _ => e.androidList.bind List.head?)
  | .ios => (e.ios.orElse fun _ => e.iosList.bind List.head?)

/-- PageElement.getAll: the configured list for the active platform if
present (nullish coalescing), otherwise a singleton of the single
locator when that value is truthy, otherwise null. -/
def PageElement.getAll (e : PageElement) (platform : Platform) : Option (List Locator) :=
  match platform with
  | .android =>
    (e.androidList.orElse fun _ =>
      match e.android with
      | some l => if l.isTruthy then some [l] else none
      | none => none)
  | .ios =>
    (e.iosList.orElse fun _ =>
      match e.ios with
      | some l => if l.isTruthy then some [l] else none
      | none => none)

/-- The spec description of getAll, written from the specification text
for comparison with the source translation: every configured
alternative for the active platform, falling back to a one-element list
containing the single query. -/
def getAllSpec (e : PageElement) (platform : Platform) : Option (List Locator) :=
  match platform with
  | .android => (e.androidList.orElse fun _ => e.android.map fun l => [l])
  | .ios => (e.iosList.orElse fun _ => e.ios.map fun l => [l])

/-! ## Element selection step of waitForElements -/

/-- A found on-screen element as far as the selection step observes it:
an opaque identity and its isDisplayed answer. -/
structure UiElement where
  id : Nat
  displayed : Bool
deriving DecidableEq, Repr

/-- Error raised when a query returned no elements. -/
def noElementsMsg : String := "elements not found"

/-- Error raised when the element was found but is not displayed. -/
def notVisibleMsg : String := "Элемент найден, но не видим"

/-- JS rendering of the ordinal argument inside the out-of-range
message: the number, or null when absent. -/
def ordinalText : Option Int → String
  | some n => toString n
  | none => "null"

/-- Out-of-range failure message of waitForElements, naming the
requested ordinal and the number of elements found. -/
def outOfRangeMsg (elementNumber : Option Int) (found : Nat) : String :=
  "Элемент " ++ ordinalText elementNumber ++ " вне диапазона (всего найдено: " ++
    toString found ++ ")"

/-- The per-locator selection step of MobileActions.waitForElements,
applied to the elements one query returned: empty results fail, then
the 1-based ordinal (defaulting to 1 when null) is bounds-checked, then
the selected element must be displayed.  Each failure message is the
error the source throws at that point; in the enclosing loop it becomes
the recorded last error of the aggregate failure. -/
def selectElement (els : List UiElement) (elementNumber : Option Int) :
    Except String UiElement :=
  if els.length == 0 then .error noElementsMsg
  else
    let safeIndex : Int := elementNumber.getD 1
    if h : safeIndex < 1 ∨ (els.length : Int) < safeIndex then
      .error (outOfRangeMsg elementNumber els.length)
    else
      let el := els.get ⟨(safeIndex - 1).toNat, by omega⟩
      if el.displayed then .ok el else .error notVisibleMsg

/-! ## Scroll gestures -/

/-- Scroll directions of the source enum. -/
inductive ScrollDirection where
  | down
  | up
  | right
  | left
deriving DecidableEq, Repr

/-- Bounding rectangle of an element, from getLocation and getSize. -/
structure Rect where
  x : Rat
  y : Rat
  width : Rat
  height : Rat
deriving Repr

/-- Viewport size, from getWindowSize. -/
structure WinSize where
  width : Rat
  height : Rat
deriving Repr

/-- One pointer gesture issued to the device: touchAndMoveVertical or
touchAndMoveHorizontal with the coordinates the source computes. -/
inductive TouchMove where
  | vertical : Int → Int → Int → TouchMove
  | horizontal : Int → Int → Int → TouchMove
deriving DecidableEq, Repr

/-- JS Math.round: round half toward positive infinity. -/
def jsRound (q : Rat) : Int := (q + 1 / 2).floor

/-- DEFAULT_SWIPE_COEFFICIENT = 0.95. -/
def swipeCoefficient : Rat := 19 / 20

/-- DEFAULT_SCROLL_COEFFICIENT = 0.75. -/
def scrollCoefficient : Rat := 3 / 4

/-- One element-anchored swipe gesture of performScroll. -/
def elementScrollMove (rect : Rect) (scrollCapacity : Rat)
    (dir : ScrollDirection) : TouchMove :=
  if dir = .right ∨ dir = .left then
    let isRight := dir = .right
    let width := rect.width * scrollCapacity
    let centerY := jsRound (rect.y + rect.height / 2)
    let startX := jsRound (rect.x +
      (if isRight then width * swipeCoefficient else width * (1 - swipeCoefficient)))
    let endX := jsRound (rect.x +
      (if isRight then width * (1 - swipeCoefficient) else width * swipeCoefficient))
    .horizontal centerY startX endX
  else
    let isDown := dir = .down
    let height := rect.height * scrollCapacity
    let centerX := jsRound (rect.x + rect.width / 2)
    let startY := jsRound (rect.y +
      (if isDown then height * swipeCoefficient else height * (1 - swipeCoefficient)))
    let endY := jsRound (rect.y +
      (if isDown then height * (1 - swipeCoefficient) else height * swipeCoefficient))
    .vertical centerX startY endY

/-- One full-viewport scroll gesture of performScroll. -/
def windowScrollMove (size : WinSize) (scrollCapacity : Rat)
    (dir : ScrollDirection) : TouchMove :=
  if dir = .right ∨ dir = .left then
    let isRight := dir = .right
    let width := size.width * scrollCapacity
    let centerY := jsRound (size.height / 2)
    let startX := jsRound
      (if isRight then width * scrollCoefficient else width * (1 - scrollCoefficient))
    let endX := jsRound (if isRight then 0 else width)
    .horizontal centerY startX endX
  else
    let isDown := dir = .down
    let height := size.height * scrollCapacity
    let centerX := jsRound (size.width / 2)
    let startY := jsRound
      (if isDown then height * scrollCoefficient else height * (1 - scrollCoefficient))
    let endY := jsRound (if isDown then 0 else height)
    .vertical centerX startY endY

/-- The misconfiguration message of performScroll. -/
def scrollCapacityMsg (scrollCapacity : Rat) : String :=
  "scrollCapacity=" ++ toString scrollCapacity ++ ", допустимый диапазон (0.0; 1.0]"

/-- MobileActions.performScroll: validate the capacity before anything
is sent to the device, then issue scrollCount identical gestures against
the element rectangle (resolved by the device and supplied here as
input) or against the viewport.  The result is the list of gestures
issued together with the error, if any; validation failure issues no
gesture and raises immediately, without retrying. -/
def performScroll (element : Option Rect) (scrollCount : Nat)
    (scrollCapacity : Rat) (dir : ScrollDirection) (win : WinSize) :
    List TouchMove × Option String :=
  if ¬(scrollCapacity > 0 ∧ scrollCapacity ≤ 1) then
    ([], some (scrollCapacityMsg scrollCapacity))
  else
    match element with
    | some rect => (List.replicate scrollCount (elementScrollMove rect scrollCapacity dir), none)
    | none => (List.replicate scrollCount (windowScrollMove win scrollCapacity dir), none)

/-! ## Weight lemmas -/

theorem jweight_pos (j : Json) : 1 ≤ jweight j := by
  cases j <;> simp [jweight]

theorem jsonLookup_weight_le {kvs : List (String × Json)} {key : String} {v : Json}
    (h : jsonLookup kvs key = some v) : jweight v ≤ jweightObj kvs := by
  induction kvs with
  | nil => simp [jsonLookup] at h
  | cons kv rest ih =>
    obtain ⟨k0, v0⟩ := kv
    simp only [jsonLookup] at h
    split at h
    · cases h
      simp [jweightObj]
      omega
    · have := ih h
      simp [jweightObj]
      omega

theorem objUpdate_weight_le (acc : List (String × Json)) (k : String) (v : Json) :
    jweightObj (objUpdate acc k v) ≤ jweightObj acc + k.length + jweight v := by
  induction acc with
  | nil => simp [objUpdate, jweightObj]
  | cons kv rest ih =>
    obtain ⟨k0, v0⟩ := kv
    simp only [objUpdate]
    split
    · simp [jweightObj]
      omega
    · simp [jweightObj]
      omega

theorem dedupObjEntries_foldl_weight_le (kvs acc : List (String × Json)) :
    jweightObj (kvs.foldl (fun a kv => objUpdate a kv.1 kv.2) acc) ≤
      jweightObj acc + jweightObj kvs := by
  induction kvs generalizing acc with
  | nil => simp [jweightObj]
  | cons kv rest ih =>
    obtain ⟨k0, v0⟩ := kv
    simp only [List.foldl_cons]
    calc jweightObj (rest.foldl (fun a kv => objUpdate a kv.1 kv.2) (objUpdate acc k0 v0)) ≤
        jweightObj (objUpdate acc k0 v0) + jweightObj rest := ih _
      _ ≤ jweightObj acc + k0.length + jweight v0 + jweightObj rest := by
          have := objUpdate_weight_le acc k0 v0; omega
      _ = jweightObj acc + jweightObj ((k0, v0) :: rest) := by simp [jweightObj]; ring

theorem dedupObjEntries_weight_le (kvs : List (String × Json)) :
    jweightObj (dedupObjEntries kvs) ≤ jweightObj kvs := by
  have := dedupObjEntries_foldl_weight_le kvs []
  simpa [dedupObjEntries, jweightObj] using this

/-! ## Parser consumption bounds -/

theorem skipWs_length_le (l : List Char) : (skipWs l).length ≤ l.length := by
  induction l with
  | nil => simp [skipWs]
  | cons c cs ih =>
    simp only [skipWs]
    split
    · simp; omega
    · simp
theorem parseStrBody_bound :
    ∀ (fuel : Nat) (l content rest : List Char),
      parseStrBody fuel l = some (content, rest) →
      content.length + rest.length < l.length := by
  intro fuel
  induction fuel with
  | zero => intro l content rest h; simp [parseStrBody] at h
  | succ n ih =>
    intro l content rest h
    cases l with
    | nil => simp [parseStrBody] at h
    | cons c cs =>
      simp only [parseStrBody] at h
      split at h
      · cases h; simp
      · split at h
        · cases cs with
          | nil => simp at h
          | cons e cs2 =>
            simp only at h
            split at h
            · split at h
              · split at h
                · split at h
                  · cases h
                    rename parseStrBody _ _ = _ => hrec
                    have hb := ih _ _ _ hrec
                    simp only [List.length_cons] at *
                    omega
                  · exact absurd h (by simp)
                · exact absurd h (by simp)
              · exact absurd h (by simp)
            · split at h
              · split at h
                · cases h
                  rename parseStrBody _ _ = _ => hrec
                  have hb := ih _ _ _ hrec
                  simp only [List.length_cons] at *
                  omega
                · exact absurd h (by simp)
              · exact absurd h (by simp)
        · split at h
          · exact absurd h (by simp)
          · split at h
            · cases h
              rename parseStrBody _ _ = _ => hrec
              have hb := ih _ _ _ hrec
              simp only [List.length_cons] at *
              omega
            · exact absurd h (by simp)
theorem takeDigits_length (l : List Char) :
    (takeDigits l).1.length + (takeDigits l).2.length = l.length := by
  induction l with
  | nil => simp [takeDigits]
  | cons c cs ih =>
    simp only [takeDigits]
    split
    · simp; omega
    · simp

theorem parseNumCore_bound : ∀ (l : List Char) (n : Int) (rest : List Char),
    parseNumCore l = some (n, rest) → rest.length < l.length := by
  intro l n rest h
  have ht := takeDigits_length l
  unfold parseNumCore at h
  rcases htd : takeDigits l with ⟨ds, r⟩
  rw [htd] at h ht
  simp only at h ht
  split at h
  · exact absurd h (by simp)
  · split at h
    · exact absurd h (by simp)
    · split at h
      · exact absurd h (by simp)
      · exact absurd h (by simp)
      · exact absurd h (by simp)
      · cases h
        simp only [List.length_cons] at *
        omega

theorem parseNum_bound : ∀ (l : List Char) (n : Int) (rest : List Char),
    parseNum l = some (n, rest) → rest.length < l.length := by
  intro l n rest h
  unfold parseNum at h
  split at h
  · rcases hc : parseNumCore _ with _ | ⟨n2, r2⟩ <;> rw [hc] at h
    · simp at h
    · simp at h
      obtain ⟨hn, hr⟩ := h
      subst hr
      have := parseNumCore_bound _ _ _ hc
      simp only [List.length_cons]
      omega
  · exact parseNumCore_bound _ _ _ h
theorem strMk_length (cs : List Char) : (⟨cs⟩ : String).length = cs.length := rfl

theorem parse_bounds : ∀ fuel : Nat,
    (∀ l v rest, parseVal fuel l = some (v, rest) →
      jweight v + rest.length ≤ l.length) ∧
    (∀ l xs rest, parseArrItems fuel l = some (xs, rest) →
      jweightArr xs + rest.length < l.length) ∧
    (∀ l kvs rest, parseObjItems fuel l = some (kvs, rest) →
      jweightObj kvs + rest.length < l.length) := by
  intro fuel
  induction fuel with
  | zero =>
    refine ⟨?_, ?_, ?_⟩ <;> intro l a rest h <;> simp [parseVal, parseArrItems, parseObjItems] at h
  | succ n ih =>
    obtain ⟨ihV, ihA, ihO⟩ := ih
    refine ⟨?_, ?_, ?_⟩
    · -- parseVal
      intro l v rest h
      have hswl := skipWs_length_le l
      simp only [parseVal] at h
      split at h
      · exact absurd h (by simp)
      · rename_i c cs hsw
        rw [hsw] at hswl
        simp only [List.length_cons] at hswl
        split at h
        · -- string literal
          split at h
          · rename_i content rest2 hsb
            cases h
            have hb := parseStrBody_bound _ _ _ _ hsb
            simp only [jweight, strMk_length]
            omega
          · exact absurd h (by simp)
        · split at h
          · -- object
            split at h
            · -- '}' :: rest
              rename_i rest2 hsw2
              cases h
              have h2 := skipWs_length_le cs
              rw [hsw2] at h2
              simp only [List.length_cons] at h2
              simp only [jweight, jweightObj]
              omega
            · split at h
              · rename_i kvs rest2 hobj
                cases h
                have h2 := skipWs_length_le cs
                have hb := ihO _ _ _ hobj
                have hd := dedupObjEntries_weight_le kvs
                simp only [jweight]
                omega
              · exact absurd h (by simp)
          · split at h
            · -- array
              split at h
              · rename_i rest2 hsw2
                cases h
                have h2 := skipWs_length_le cs
                rw [hsw2] at h2
                simp only [List.length_cons] at h2
                simp only [jweight, jweightArr]
                omega
              · split at h
                · rename_i xs rest2 harr
                  cases h
                  have h2 := skipWs_length_le cs
                  have hb := ihA _ _ _ harr
                  simp only [jweight]
                  omega
                · exact absurd h (by simp)
            · split at h
              · -- true
                split at h
                · rename_i rest2
                  cases h
                  simp only [jweight]
                  simp_all
                  omega
                · exact absurd h (by simp)
              · split at h
                · -- false
                  split at h
                  · rename_i rest2
                    cases h
                    simp only [jweight]
                    simp_all
                    omega
                  · exact absurd h (by simp)
                · split at h
                  · -- null
                    split at h
                    · rename_i rest2
                      cases h
                      simp only [jweight]
                      simp_all
                      omega
                    · exact absurd h (by simp)
                  · -- number
                    split at h
                    · rename_i m rest2 hnum
                      cases h
                      have hb := parseNum_bound _ _ _ hnum
                      simp only [jweight, List.length_cons] at *
                      omega
                    · exact absurd h (by simp)
    · -- parseArrItems
      intro l xs rest h
      simp only [parseArrItems] at h
      split at h
      · rename_i v rest1 hv
        have hbv := ihV _ _ _ hv
        split at h
        · -- comma
          rename_i rest2 hsw2
          have h2 := skipWs_length_le rest1
          rw [hsw2] at h2
          simp only [List.length_cons] at h2
          split at h
          · rename_i xs0 rest3 hrec
            cases h
            have hb := ihA _ _ _ hrec
            simp only [jweightArr]
            omega
          · exact absurd h (by simp)
        · -- close bracket
          rename_i rest2 hsw2
          have h2 := skipWs_length_le rest1
          rw [hsw2] at h2
          simp only [List.length_cons] at h2
          cases h
          simp only [jweightArr]
          omega
        · exact absurd h (by simp)
      · exact absurd h (by simp)
    · -- parseObjItems
      intro l kvs rest h
      have hswl := skipWs_length_le l
      simp only [parseObjItems] at h
      split at h
      · rename_i cs hsw
        rw [hsw] at hswl
        simp only [List.length_cons] at hswl
        split at h
        · rename_i key rest1 hkey
          have hbk := parseStrBody_bound _ _ _ _ hkey
          split at h
          · -- colon
            rename_i rest2 hsw2
            have h2 := skipWs_length_le rest1
            rw [hsw2] at h2
            simp only [List.length_cons] at h2
            split at h
            · rename_i v rest3 hv
              have hbv := ihV _ _ _ hv
              split at h
              · -- comma
                rename_i rest4 hsw3
                have h3 := skipWs_length_le rest3
                rw [hsw3] at h3
                simp only [List.length_cons] at h3
                split at h
                · rename_i kvs0 rest5 hrec
                  cases h
                  have hb := ihO _ _ _ hrec
                  simp only [jweightObj, strMk_length]
                  omega
                · exact absurd h (by simp)
              · -- close brace
                rename_i rest4 hsw3
                have h3 := skipWs_length_le rest3
                rw [hsw3] at h3
                simp only [List.length_cons] at h3
                cases h
                simp only [jweightObj, strMk_length]
                omega
              · exact absurd h (by simp)
            · exact absurd h (by simp)
          · exact absurd h (by simp)
        · exact absurd h (by simp)
      · exact absurd h (by simp)

/-- A value recovered by parsing a string is strictly lighter than the
string viewed as a JSON value: the key fact making the recursion of the
source matcher well founded. -/
theorem parseJson_weight_le {s : String} {v : Json} (h : parseJson s = some v) :
    jweight v ≤ s.length := by
  unfold parseJson at h
  split at h
  · rename_i v2 rest hv
    split at h
    · cases h
      have hb := (parse_bounds (s.length + 1)).1 _ _ _ hv
      have : s.data.length = s.length := rfl
      omega
    · exact absurd h (by simp)
  · exact absurd h (by simp)
/-- Any fuel at least the measure of the call computes the same result:
the fuel-indexed matcher is stable above its measure, so the wrapper
matchJsonElement computes the function the source defines. -/
theorem matchFuel_stable : ∀ k : Nat,
    (∀ n m ev sv, n + m ≤ k → Mmatch ev sv ≤ n → Mmatch ev sv ≤ m →
      matchFuelElement n ev sv = matchFuelElement m ev sv) ∧
    (∀ n m evF l, n + m ≤ k → MobjE evF l ≤ n → MobjE evF l ≤ m →
      matchFuelObjEntries n evF l = matchFuelObjEntries m evF l) ∧
    (∀ n m es ps, n + m ≤ k → Mall es ps ≤ n → Mall es ps ≤ m →
      matchFuelAll n es ps = matchFuelAll m es ps) ∧
    (∀ n m es p, n + m ≤ k → Many es p ≤ n → Many es p ≤ m →
      matchFuelAny n es p = matchFuelAny m es p) := by
  intro k
  induction k with
  | zero =>
    refine ⟨?_, ?_, ?_, ?_⟩
    · intro n m ev sv hk h1 h2
      have := jweight_pos ev
      simp only [Mmatch] at h1
      omega
    · intro n m evF l hk h1 h2
      simp only [MobjE] at h1
      omega
    · intro n m es ps hk h1 h2
      simp only [Mall] at h1
      omega
    · intro n m es p hk h1 h2
      simp only [Many] at h1
      omega
  | succ k ih =>
    obtain ⟨ihE, ihO, ihAll, ihAny⟩ := ih
    refine ⟨?_, ?_, ?_, ?_⟩
    · intro n m ev sv hk h1 h2
      have hwe := jweight_pos ev
      have hws := jweight_pos sv
      cases n with
      | zero => exfalso; simp only [Mmatch] at h1; omega
      | succ n =>
        cases m with
        | zero => exfalso; simp only [Mmatch] at h2; omega
        | succ m =>
          simp only [matchFuelElement]
          by_cases hp : (isPrimitive ev && isPrimitive sv) = true
          · simp [hp]
          · simp only [Bool.not_eq_true] at hp
            simp only [hp]
            cases ev with
            | str s =>
              show (match parseJson s with
                    | some Json.null => false
                    | some parsed => matchFuelElement n parsed sv
                    | none => false) =
                  (match parseJson s with
                    | some Json.null => false
                    | some parsed => matchFuelElement m parsed sv
                    | none => false)
              rcases hps : parseJson s with _ | v
              · rfl
              · have hpw := parseJson_weight_le hps
                simp only [Mmatch, jweight] at h1 h2
                cases v with
                | null => rfl
                | bool b =>
                  exact ihE n m _ sv (by omega)
                    (by simp [Mmatch, jweight]; omega) (by simp [Mmatch, jweight]; omega)
                | num i =>
                  exact ihE n m _ sv (by omega)
                    (by simp [Mmatch, jweight]; omega) (by simp [Mmatch, jweight]; omega)
                | str t =>
                  exact ihE n m _ sv (by omega)
                    (by simp only [Mmatch, jweight] at hpw ⊢; omega)
                    (by simp only [Mmatch, jweight] at hpw ⊢; omega)
                | arr xs =>
                  exact ihE n m _ sv (by omega)
                    (by simp only [Mmatch, jweight] at hpw ⊢; omega)
                    (by simp only [Mmatch, jweight] at hpw ⊢; omega)
                | obj kvs =>
                  exact ihE n m _ sv (by omega)
                    (by simp only [Mmatch, jweight] at hpw ⊢; omega)
                    (by simp only [Mmatch, jweight] at hpw ⊢; omega)
            | obj evF =>
              cases sv with
              | obj svF =>
                refine ihO n m evF svF (by omega) ?_ ?_ <;>
                  simp only [Mmatch, MobjE, jweight] at h1 h2 ⊢ <;> omega
              | null => rfl
              | bool b => rfl
              | num i => rfl
              | str t => rfl
              | arr ps => rfl
            | arr es =>
              cases sv with
              | arr ps =>
                refine ihAll n m es ps (by omega) ?_ ?_ <;>
                  simp only [Mmatch, Mall, jweight] at h1 h2 ⊢ <;> omega
              | null => rfl
              | bool b => rfl
              | num i => rfl
              | str t => rfl
              | obj kvs => rfl
            | null => rfl
            | bool b => rfl
            | num i => rfl
    · intro n m evF l hk h1 h2
      cases n with
      | zero => exfalso; simp only [MobjE] at h1; omega
      | succ n =>
        cases m with
        | zero => exfalso; simp only [MobjE] at h2; omega
        | succ m =>
          cases l with
          | nil => rfl
          | cons kv rest =>
            obtain ⟨kk, sval⟩ := kv
            have hwsv := jweight_pos sval
            show ((match jsonLookup evF kk with
              | some v => matchFuelElement n v sval
              | none => false) && matchFuelObjEntries n evF rest) =
              ((match jsonLookup evF kk with
              | some v => matchFuelElement m v sval
              | none => false) && matchFuelObjEntries m evF rest)
            simp only [MobjE, jweightObj] at h1 h2
            have hrec := ihO n m evF rest (by omega)
              (by simp only [MobjE]; omega) (by simp only [MobjE]; omega)
            rcases hlk : jsonLookup evF kk with _ | v
            · show (false && matchFuelObjEntries n evF rest) =
                (false && matchFuelObjEntries m evF rest)
              rw [hrec]
            · have hvw := jsonLookup_weight_le hlk
              have hel := ihE n m v sval (by omega)
                (by simp only [Mmatch]; omega) (by simp only [Mmatch]; omega)
              show (matchFuelElement n v sval && matchFuelObjEntries n evF rest) =
                (matchFuelElement m v sval && matchFuelObjEntries m evF rest)
              rw [hrec, hel]
    · intro n m es ps hk h1 h2
      cases n with
      | zero => exfalso; simp only [Mall] at h1; omega
      | succ n =>
        cases m with
        | zero => exfalso; simp only [Mall] at h2; omega
        | succ m =>
          cases ps with
          | nil => rfl
          | cons p ps =>
            have hwp := jweight_pos p
            show (matchFuelAny n es p && matchFuelAll n es ps) =
              (matchFuelAny m es p && matchFuelAll m es ps)
            simp only [Mall, jweightArr] at h1 h2
            rw [ihAny n m es p (by omega)
                  (by simp only [Many]; omega) (by simp only [Many]; omega),
                ihAll n m es ps (by omega)
                  (by simp only [Mall]; omega) (by simp only [Mall]; omega)]
    · intro n m es p hk h1 h2
      cases n with
      | zero => exfalso; simp only [Many] at h1; omega
      | succ n =>
        cases m with
        | zero => exfalso; simp only [Many] at h2; omega
        | succ m =>
          cases es with
          | nil => rfl
          | cons e es =>
            have hwe := jweight_pos e
            show (matchFuelElement n e p || matchFuelAny n es p) =
              (matchFuelElement m e p || matchFuelAny m es p)
            simp only [Many, jweightArr] at h1 h2
            rw [ihE n m e p (by omega)
                  (by simp only [Mmatch]; omega) (by simp only [Mmatch]; omega),
                ihAny n m es p (by omega)
                  (by simp only [Many]; omega) (by simp only [Many]; omega)]
/-- Fuel at least the call measure computes matchJsonElement. -/
theorem matchFuelElement_stable {n : Nat} (ev sv : Json) (h : Mmatch ev sv ≤ n) :
    matchFuelElement n ev sv = matchJsonElement ev sv :=
  (matchFuel_stable (n + Mmatch ev sv)).1 n (Mmatch ev sv) ev sv (by omega) h (le_refl _)

/-- Defining equation of matchJsonElement on a pair of primitives: the
first branch of the source applies. -/
theorem match_primitive {ev sv : Json} (h1 : isPrimitive ev = true)
    (h2 : isPrimitive sv = true) :
    matchJsonElement ev sv = matchPrimitiveStrings (jsPrimString ev) (jsPrimString sv) := by
  show matchFuelElement (Mmatch ev sv) ev sv = _
  have hMe := jweight_pos ev
  have hMs := jweight_pos sv
  rcases hn : Mmatch ev sv with _ | n
  · exfalso; simp only [Mmatch] at hn; omega
  · simp [matchFuelElement, h1, h2]

/-- Defining equation of matchJsonElement on two objects: every pattern
entry must have its key present in the candidate with a recursively
matching value. -/
theorem match_obj_obj (evF svF : List (String × Json)) :
    matchJsonElement (.obj evF) (.obj svF) =
      svF.all (fun kv =>
        match jsonLookup evF kv.1 with
        | some v => matchJsonElement v kv.2
        | none => false) := by
  have hstep : matchFuelElement (MobjE evF svF + 1) (.obj evF) (.obj svF) =
      matchJsonElement (.obj evF) (.obj svF) :=
    matchFuelElement_stable _ _ (by simp only [Mmatch, MobjE, jweight]; omega)
  rw [← hstep]
  show matchFuelObjEntries (MobjE evF svF) evF svF = _
  clear hstep
  generalize hg : MobjE evF svF = n
  have hle : MobjE evF svF ≤ n := by omega
  clear hg
  induction svF generalizing n with
  | nil =>
    rcases n with _ | n
    · exfalso; simp only [MobjE] at hle; omega
    · simp [matchFuelObjEntries]
  | cons kv rest ih =>
    obtain ⟨kk, sval⟩ := kv
    rcases n with _ | n
    · exfalso; simp only [MobjE] at hle; omega
    · have hwsv := jweight_pos sval
      simp only [MobjE, jweightObj] at hle
      show ((match jsonLookup evF kk with
            | some v => matchFuelElement n v sval
            | none => false) && matchFuelObjEntries n evF rest) = _
      rw [ih n (by simp only [MobjE]; omega)]
      simp only [List.all_cons]
      congr 1
      rcases hlk : jsonLookup evF kk with _ | v
      · rfl
      · have hvw := jsonLookup_weight_le hlk
        exact matchFuelElement_stable v sval (by simp only [Mmatch]; omega)

/-- Existential array step with sufficient fuel. -/
theorem matchFuelAny_eq_any (es : List Json) (p : Json) (n : Nat)
    (hle : Many es p ≤ n) :
    matchFuelAny n es p = es.any (fun e => matchJsonElement e p) := by
  induction es generalizing n with
  | nil =>
    rcases n with _ | n
    · exfalso; simp only [Many] at hle; omega
    · simp [matchFuelAny]
  | cons e es ih =>
    rcases n with _ | n
    · exfalso; simp only [Many] at hle; omega
    · have hwe := jweight_pos e
      simp only [Many, jweightArr] at hle
      show (matchFuelElement n e p || matchFuelAny n es p) = _
      rw [ih n (by simp only [Many]; omega)]
      simp only [List.any_cons]
      congr 1
      exact matchFuelElement_stable e p (by simp only [Mmatch]; omega)

/-- Defining equation of matchJsonElement on two arrays: every element
of the pattern array must match some element of the candidate array. -/
theorem match_arr_arr (es ps : List Json) :
    matchJsonElement (.arr es) (.arr ps) =
      ps.all (fun p => es.any (fun e => matchJsonElement e p)) := by
  have hstep : matchFuelElement (Mall es ps + 1) (.arr es) (.arr ps) =
      matchJsonElement (.arr es) (.arr ps) :=
    matchFuelElement_stable _ _ (by simp only [Mmatch, Mall, jweight]; omega)
  rw [← hstep]
  show matchFuelAll (Mall es ps) es ps = _
  clear hstep
  generalize hg : Mall es ps = n
  have hle : Mall es ps ≤ n := by omega
  clear hg
  induction ps generalizing n with
  | nil =>
    rcases n with _ | n
    · exfalso; simp only [Mall] at hle; omega
    · simp [matchFuelAll]
  | cons p ps ih =>
    rcases n with _ | n
    · exfalso; simp only [Mall] at hle; omega
    · have hwp := jweight_pos p
      simp only [Mall, jweightArr] at hle
      show (matchFuelAny n es p && matchFuelAll n es ps) = _
      rw [ih n (by simp only [Mall]; omega),
          matchFuelAny_eq_any es p n (by simp only [Many]; omega)]
      simp [List.all_cons]

/-- Defining equation of matchJsonElement for a string candidate whose
text parses to a non-null JSON value while the pattern is non-primitive:
the source re-dispatches the match on the parsed value. -/
theorem match_str_promote {s : String} {sv v : Json} (hsv : isPrimitive sv = false)
    (hps : parseJson s = some v) (hv : v ≠ .null) :
    matchJsonElement (.str s) sv = matchJsonElement v sv := by
  have hpw := parseJson_weight_le hps
  have hws := jweight_pos sv
  show matchFuelElement (Mmatch (.str s) sv) (.str s) sv = _
  rcases hn : Mmatch (.str s) sv with _ | n
  · exfalso; simp only [Mmatch] at hn; omega
  · have hcond : (isPrimitive (Json.str s) && isPrimitive sv) = false := by
      rw [hsv, Bool.and_false]
    show (if (isPrimitive (Json.str s) && isPrimitive sv) = true then
            matchPrimitiveStrings (jsPrimString (Json.str s)) (jsPrimString sv)
          else
            match parseJson s with
            | some Json.null => false
            | some parsed => matchFuelElement n parsed sv
            | none => false) = matchJsonElement v sv
    rw [hcond]
    simp only [Bool.false_eq_true, if_false]
    rw [hps]
    simp only [Mmatch, jweight] at hn
    cases v with
    | null => exact absurd rfl hv
    | bool b => exact matchFuelElement_stable _ _ (by simp only [Mmatch]; omega)
    | num i => exact matchFuelElement_stable _ _ (by simp only [Mmatch]; omega)
    | str t => exact matchFuelElement_stable _ _ (by simp only [Mmatch]; omega)
    | arr xs => exact matchFuelElement_stable _ _ (by simp only [Mmatch]; omega)
    | obj kvs => exact matchFuelElement_stable _ _ (by simp only [Mmatch]; omega)

/-- An array candidate never matches an object pattern: no branch of the
source accepts the shape pair. -/
theorem match_arr_obj (xs : List Json) (kvs : List (String × Json)) :
    matchJsonElement (.arr xs) (.obj kvs) = false := by
  show matchFuelElement (Mmatch (.arr xs) (.obj kvs)) _ _ = false
  rcases hn : Mmatch (.arr xs) (.obj kvs) with _ | n
  · exfalso; simp only [Mmatch, jweight] at hn; omega
  · rfl

/-! ## Claim theorems -/

/-- Claim C1, counterexample: matching the empty array candidate against
the empty-object pattern returns false, refuting the claim that the
empty-object pattern matches every object or array candidate. -/
theorem c1_empty_pattern_counterexample :
    matchJsonElement (Json.arr []) (Json.obj []) = false := by rfl

/-- Claim C1, amended: matching a candidate against the empty-object
pattern returns true for every object candidate; for every array
candidate it returns false, because no branch of matchJsonElement
accepts an array candidate with an object pattern. -/
theorem c1_empty_pattern_amended :
    (∀ kvs : List (String × Json), matchJsonElement (Json.obj kvs) (Json.obj []) = true) ∧
    (∀ xs : List Json, matchJsonElement (Json.arr xs) (Json.obj []) = false) := by
  constructor
  · intro kvs
    rw [match_obj_obj]
    rfl
  · intro xs
    exact match_arr_obj xs []

/-- Claim C3: on a pair of primitive values matchJsonElement compares
the two stringifications with, in order, the wildcard rule for pattern
star, the empty rule for the empty pattern, the substring rule for a
pattern starting with a tilde, and exact equality otherwise. -/
theorem c3_primitive_match_rules :
    ∀ ev sv : Json, isPrimitive ev = true → isPrimitive sv = true →
      matchJsonElement ev sv =
        (if jsPrimString sv == "*" then true
         else if jsPrimString sv == "" then jsPrimString ev == ""
         else if jsStartsWith (jsPrimString sv) "~" then
           jsIncludes (jsPrimString ev) (jsStringTail (jsPrimString sv))
         else jsPrimString ev == jsPrimString sv) := by
  intro ev sv h1 h2
  rw [match_primitive h1 h2]
  rfl

/-- Claim C3, witness: the primitive rules evaluated at the concrete
examples of the specification. -/
theorem c3_primitive_match_rules_witness :
    matchJsonElement (.str "hello world") (.str "~world") = true ∧
    matchJsonElement (.str "hello") (.str "~world") = false ∧
    matchJsonElement (.str "") (.str "") = true ∧
    matchJsonElement (.str "x") (.str "") = false ∧
    matchJsonElement (.num 7) (.str "*") = true := by
  refine ⟨?_, ?_, ?_, ?_, ?_⟩
  · rw [c3_primitive_match_rules (.str "hello world") (.str "~world") rfl rfl]; rfl
  · rw [c3_primitive_match_rules (.str "hello") (.str "~world") rfl rfl]; rfl
  · rw [c3_primitive_match_rules (.str "") (.str "") rfl rfl]; rfl
  · rw [c3_primitive_match_rules (.str "x") (.str "") rfl rfl]; rfl
  · rw [c3_primitive_match_rules (.num 7) (.str "*") rfl rfl]; rfl

/-- Claim C4: on a pair of arrays the match succeeds exactly when every
element of the pattern array matches at least one element of the
candidate array, existentially and not positionally; the two
specification examples evaluate accordingly, the second failing because
not every pattern element finds a match. -/
theorem c4_array_existential :
    (∀ es ps : List Json, matchJsonElement (.arr es) (.arr ps) =
      ps.all fun p => es.any fun e => matchJsonElement e p) ∧
    matchJsonElement (.arr [.obj [("a", .num 1)], .obj [("a", .num 2)]])
      (.arr [.obj [("a", .num 2)]]) = true ∧
    matchJsonElement (.arr [.obj [("a", .num 1)]])
      (.arr [.obj [("a", .num 1)], .obj [("a", .num 2)]]) = false := by
  exact ⟨match_arr_arr, by rfl, by rfl⟩

/-- Claim C5: when the candidate is a string whose text parses to a
non-null JSON value and the pattern is non-primitive, the match
re-dispatches on the parsed value; in particular the nested
string-JSON coercion example of the specification succeeds. -/
theorem c5_string_json_promotion :
    (∀ (s : String) (sv v : Json), isPrimitive sv = false → parseJson s = some v →
      v ≠ .null → matchJsonElement (.str s) sv = matchJsonElement v sv) ∧
    matchJsonElement (.obj [("body", .str "\x7b\"x\":1\x7d")])
      (.obj [("body", .obj [("x", .num 1)])]) = true := by
  exact ⟨fun s sv v hsv hps hv => match_str_promote hsv hps hv, by rfl⟩

/-- Claim C5, witness: the re-dispatch equation applied at the concrete
embedded-JSON string of the specification example. -/
theorem c5_string_json_promotion_witness :
    matchJsonElement (.str "\x7b\"x\":1\x7d") (.obj [("x", .num 1)]) =
      matchJsonElement (.obj [("x", .num 1)]) (.obj [("x", .num 1)]) :=
  c5_string_json_promotion.1 "\x7b\"x\":1\x7d" (.obj [("x", .num 1)])
    (.obj [("x", .num 1)]) rfl rfl (fun h => Json.noConfusion h)
/-- find? over a split list returns the marked element when everything
before it fails the predicate and the element satisfies it. -/
theorem find_first_in_split {p : Event → Bool} {l1 l2 : List Event} {e : Event}
    (h1 : ∀ x ∈ l1, p x = false) (he : p e = true) :
    (l1 ++ e :: l2).find? p = some e := by
  induction l1 with
  | nil => simp [List.find?_cons, he]
  | cons a l1 ih =>
    have ha := h1 a (by simp)
    simp only [List.cons_append, List.find?_cons, ha]
    exact ih fun x hx => h1 x (by simp [hx])

/-- Claim C2: event consumption is at-most-once.  Over a log holding
exactly one event named X, none of it consumed yet, the first
checkHasEvent succeeds and inserts exactly that event sequence number
into the matched set, and the second call over the resulting state times
out with the deadline error; moreover every successful wait consumes a
sequence number that was not in the matched set before, so no sequence
number is ever matched by two waits. -/
theorem c2_event_at_most_once :
    (∀ (st : EventState) (name : String) (t : Nat) (l1 l2 : List Event) (e : Event),
      st.events = l1 ++ e :: l2 →
      e.name = name →
      (∀ ev ∈ l1, ev.name ≠ name) →
      (∀ ev ∈ l2, ev.name ≠ name) →
      st.matched.contains e.event_num = false →
      0 < t →
      checkHasEvent st name none t =
        .ok { st with matched := e.event_num :: st.matched } ∧
      checkHasEvent { st with matched := e.event_num :: st.matched } name none t =
        .error (eventTimeoutMsg name none t)) ∧
    (∀ (st : EventState) (name : String) (d : Option String) (t : Nat)
        (st2 : EventState),
      checkHasEvent st name d t = .ok st2 →
      ∃ num, st.matched.contains num = false ∧ st2.matched = num :: st.matched) := by
  constructor
  · intro st name t l1 l2 e hev hname h1 h2 hm ht
    have ht0 : (t == 0) = false := by simp; omega
    constructor
    · unfold checkHasEvent
      rw [ht0]
      simp only [Bool.false_eq_true, if_false]
      rw [hev, find_first_in_split]
      · intro x hx
        have := h1 x hx
        simp [eventMatchesQuery, this]
      · simp [eventMatchesQuery, hname]
        simpa using hm
    · unfold checkHasEvent
      rw [ht0]
      simp only [Bool.false_eq_true, if_false]
      have hnone : (List.find?
          (eventMatchesQuery { st with matched := e.event_num :: st.matched } name none)
          { st with matched := e.event_num :: st.matched }.events) = none := by
        rw [List.find?_eq_none]
        intro x hx
        simp only [hev] at hx
        rcases List.mem_append.mp hx with hx1 | hx2
        · have := h1 x hx1
          simp [eventMatchesQuery, this]
        · rcases List.mem_cons.mp hx2 with rfl | hx3
          · simp [eventMatchesQuery]
          · have := h2 x hx3
            simp [eventMatchesQuery, this]
      rw [hnone]
  · intro st name d t st2 h
    unfold checkHasEvent at h
    split at h
    · exact absurd h (by simp)
    · split at h
      · rename_i ev hfind
        have hp := List.find?_some hfind
        cases h
        refine ⟨ev.event_num, ?_, rfl⟩
        simp only [eventMatchesQuery, Bool.and_eq_true, Bool.not_eq_true'] at hp
        exact hp.1.1
      · exact absurd h (by simp)

/-- Claim C2, witness: a log with exactly one event named X; the first
wait consumes it, the second times out. -/
theorem c2_event_at_most_once_witness :
    checkHasEvent ⟨[⟨"t0", 1, "X", none⟩], []⟩ "X" none 15 =
      .ok ⟨[⟨"t0", 1, "X", none⟩], [1]⟩ ∧
    checkHasEvent ⟨[⟨"t0", 1, "X", none⟩], [1]⟩ "X" none 15 =
      .error (eventTimeoutMsg "X" none 15) :=
  c2_event_at_most_once.1 ⟨[⟨"t0", 1, "X", none⟩], []⟩ "X" 15 [] []
    ⟨"t0", 1, "X", none⟩ rfl rfl (by simp) (by simp) rfl (by omega)
/-- Claim C6: the outer entry point containsJsonData returns false, not
an error, whenever the event JSON does not parse, the search JSON does
not parse, or the envelope lacks the expected body, event or data
shape.  The final conjunct characterizes every accepting run: the call
returns true only when the event JSON parses to an object or array, its
body member is a string that itself parses to an object or array, that
value carries an event member that is an object or array, the event
carries a data member, and the search JSON parses to an object or
array whose entries are all found in the data tree.  Its contrapositive
therefore yields false for every malformed shape: a missing, non-string
or unparsable body, a missing or non-object event, an absent data
member, and a non-object value on either side.  Total evaluation of the
matcher itself is witnessed by the functions of this development being
total Lean functions. -/
theorem c6_contains_json_data_total :
    (∀ s1 s2 : String, parseJson s1 = none → containsJsonData s1 s2 = false) ∧
    (∀ s1 s2 : String, parseJson s2 = none → containsJsonData s1 s2 = false) ∧
    (∀ (s1 s2 : String) (j : Json), parseJson s1 = some j →
      jsGetField j "body" = none → containsJsonData s1 s2 = false) ∧
    (∀ (s1 s2 bodyStr : String) (j bo : Json), parseJson s1 = some j →
      jsGetField j "body" = some (.str bodyStr) → parseJson bodyStr = some bo →
      jsGetField bo "event" = none → containsJsonData s1 s2 = false) ∧
    (∀ s1 s2 : String, containsJsonData s1 s2 = true →
      ∃ (j bo ev d sj : Json) (bodyStr : String),
        parseJson s1 = some j ∧ isJsObject j = true ∧
        jsGetField j "body" = some (.str bodyStr) ∧
        parseJson bodyStr = some bo ∧ isJsObject bo = true ∧
        jsGetField bo "event" = some ev ∧ isJsObject ev = true ∧
        jsGetField ev "data" = some d ∧
        parseJson s2 = some sj ∧ isJsObject sj = true ∧
        (jsEntries sj).all (fun kv => findKeyValueInTree d kv.1 kv.2) = true) := by
  refine ⟨?_, ?_, ?_, ?_, ?_⟩
  · intro s1 s2 h
    unfold containsJsonData
    rw [h]
  · intro s1 s2 h
    unfold containsJsonData
    repeat' split
    all_goals first | rfl | simp_all
  · intro s1 s2 j hj hb
    unfold containsJsonData
    repeat' split
    all_goals first | rfl | simp_all
  · intro s1 s2 bodyStr j bo hj hb hbo hev
    unfold containsJsonData
    repeat' split
    all_goals first | rfl | simp_all
  · intro s1 s2 h
    unfold containsJsonData at h
    split at h
    · exact absurd h (by simp)
    · rename_i j heq1
      split at h
      · exact absurd h (by simp)
      · rename_i hobj1
        split at h
        · rename_i bodyStr heq2
          split at h
          · exact absurd h (by simp)
          · rename_i bo heq3
            split at h
            · exact absurd h (by simp)
            · rename_i hobj2
              split at h
              · rename_i ev heq4
                split at h
                · exact absurd h (by simp)
                · rename_i hobj3
                  split at h
                  · exact absurd h (by simp)
                  · rename_i d heq5
                    split at h
                    · exact absurd h (by simp)
                    · rename_i sj heq6
                      split at h
                      · exact absurd h (by simp)
                      · rename_i hobj4
                        exact ⟨j, bo, ev, d, sj, bodyStr, heq1,
                          by simpa using hobj1, heq2, heq3,
                          by simpa using hobj2, heq4,
                          by simpa using hobj3, heq5, heq6,
                          by simpa using hobj4, h⟩
              · exact absurd h (by simp)
        · exact absurd h (by simp)

/-- Claim C6, witness: unparsable event JSON yields false. -/
theorem c6_contains_json_data_total_witness :
    containsJsonData "not json" "\x7b\x7d" = false :=
  c6_contains_json_data_total.1 "not json" "\x7b\x7d" rfl

/-- Claim C7: in the selection step of waitForElements, an ordinal
beyond the number of elements found fails with the out-of-range
diagnostic naming the requested ordinal and the count found; the
concrete instance of the specification shows its text, which differs
from the diagnostic of an empty result; a null ordinal selects the
first element. -/
theorem c7_ordinal_diagnostics :
    (∀ (els : List UiElement) (n : Int), els ≠ [] → (els.length : Int) < n →
      selectElement els (some n) = .error (outOfRangeMsg (some n) els.length)) ∧
    selectElement [⟨0, true⟩, ⟨1, true⟩] (some 5) =
      .error "Элемент 5 вне диапазона (всего найдено: 2)" ∧
    selectElement ([] : List UiElement) (some 5) = .error noElementsMsg ∧
    outOfRangeMsg (some 5) 2 ≠ noElementsMsg ∧
    (∀ (e : UiElement) (els : List UiElement), e.displayed = true →
      selectElement (e :: els) none = .ok e) := by
  refine ⟨?_, by rfl, by rfl, by decide, ?_⟩
  · intro els n hne hlt
    unfold selectElement
    rw [if_neg (by simpa [List.length_eq_zero] using hne)]
    simp only [Option.getD_some]
    rw [dif_pos (Or.inr hlt)]
  · intro e els hd
    unfold selectElement
    rw [if_neg (by simp)]
    simp only [Option.getD_none]
    rw [dif_neg (by simp [List.length_cons])]
    simp [hd]

/-- Claim C7, witness: a null ordinal selects the first displayed
element. -/
theorem c7_ordinal_diagnostics_witness :
    selectElement [⟨7, true⟩] none = .ok ⟨7, true⟩ :=
  c7_ordinal_diagnostics.2.2.2.2 ⟨7, true⟩ [] rfl

/-- Claim C8: a scroll capacity outside the interval from zero
exclusive to one inclusive makes performScroll fail immediately with
the misconfiguration message while issuing no device gesture at all,
for any element, scroll count, direction and viewport. -/
theorem c8_scroll_capacity_validation :
    ∀ (element : Option Rect) (scrollCount : Nat) (c : Rat)
      (dir : ScrollDirection) (win : WinSize),
      ¬(0 < c ∧ c ≤ 1) →
      performScroll element scrollCount c dir win = ([], some (scrollCapacityMsg c)) := by
  intro element scrollCount c dir win h
  unfold performScroll
  rw [if_pos h]

/-- Claim C8, witness: capacity zero and capacity two both fail
immediately with no gesture issued. -/
theorem c8_scroll_capacity_validation_witness :
    performScroll none 1 0 .down ⟨100, 200⟩ = ([], some (scrollCapacityMsg 0)) ∧
    performScroll (some ⟨0, 0, 50, 50⟩) 2 2 .up ⟨100, 200⟩ =
      ([], some (scrollCapacityMsg 2)) :=
  ⟨c8_scroll_capacity_validation none 1 0 .down ⟨100, 200⟩ (by decide),
   c8_scroll_capacity_validation (some ⟨0, 0, 50, 50⟩) 2 2 .up ⟨100, 200⟩ (by decide)⟩
/-- Claim C9, counterexample: a PageElement configured with the empty
selector string as its single Android locator.  get returns that
locator, but getAll returns none instead of the one-element list the
claim promises, because the source falls back through a JS truthiness
test that the empty string fails. -/
theorem c9_locator_counterexample :
    PageElement.getAll ⟨some (.str ""), none, none, none⟩ .android = none ∧
    getAllSpec ⟨some (.str ""), none, none, none⟩ .android = some [.str ""] ∧
    PageElement.get ⟨some (.str ""), none, none, none⟩ .android = some (.str "") :=
  ⟨rfl, rfl, rfl⟩

/-- Claim C9, amended: getAll agrees with the specification formula
whenever the single configured locator is not the falsy empty selector
string; get returns the single locator with nullish fallback to the
head of the configured list; and a platform with nothing configured
yields none from both, not an error. -/
theorem c9_locator_amended :
    (∀ (e : PageElement) (p : Platform),
      (match p with | .android => e.android | .ios => e.ios) ≠ some (.str "") →
      PageElement.getAll e p = getAllSpec e p) ∧
    (∀ (e : PageElement) (p : Platform),
      PageElement.get e p =
        ((match p with | .android => e.android | .ios => e.ios).orElse fun _ =>
          (match p with | .android => e.androidList | .ios => e.iosList).bind
            List.head?)) ∧
    (∀ p : Platform,
      PageElement.get ⟨none, none, none, none⟩ p = none ∧
      PageElement.getAll ⟨none, none, none, none⟩ p = none) := by
  refine ⟨?_, ?_, ?_⟩
  · intro e p h
    cases p <;>
      simp only at h <;>
      simp only [PageElement.getAll, getAllSpec]
    · cases hl : e.androidList with
      | some ls => simp [Option.orElse]
      | none =>
        cases ha : e.android with
        | none => simp [Option.orElse]
        | some l =>
          rw [ha] at h
          have : l.isTruthy = true := by
            cases l with
            | str s =>
              simp [Locator.isTruthy]
              intro hs
              exact h (by rw [hs])
            | strategy u v => rfl
          simp [Option.orElse, this]
    · cases hl : e.iosList with
      | some ls => simp [Option.orElse]
      | none =>
        cases ha : e.ios with
        | none => simp [Option.orElse]
        | some l =>
          rw [ha] at h
          have : l.isTruthy = true := by
            cases l with
            | str s =>
              simp [Locator.isTruthy]
              intro hs
              exact h (by rw [hs])
            | strategy u v => rfl
          simp [Option.orElse, this]
  · intro e p
    cases p <;> rfl
  · intro p
    cases p <;> exact ⟨rfl, rfl⟩

/-- Claim C9, witness: with a truthy single locator configured, getAll
agrees with the specification formula. -/
theorem c9_locator_amended_witness :
    PageElement.getAll ⟨some (.strategy "xpath" ".//x"), none, none, none⟩ .android =
      getAllSpec ⟨some (.strategy "xpath" ".//x"), none, none, none⟩ .android :=
  c9_locator_amended.1 ⟨some (.strategy "xpath" ".//x"), none, none, none⟩ .android
    (by decide)
/-- Every add leaves the stored events as a prefix: entries are never
mutated or reordered. -/
theorem addEvents_front_unchanged (events newEvents : List Event) :
    events <+: addEvents events newEvents := by
  unfold addEvents
  induction newEvents generalizing events with
  | nil => exact List.prefix_refl events
  | cons e rest ih =>
    simp only [List.foldl_cons]
    refine List.IsPrefix.trans ?_ (ih _)
    split
    · exact List.prefix_refl events
    · exact ⟨[e], rfl⟩

/-- Adding events preserves pairwise distinctness of sequence
numbers. -/
theorem addEvents_pairwise {events : List Event} (newEvents : List Event)
    (h : List.Pairwise (fun a b => a.event_num ≠ b.event_num) events) :
    List.Pairwise (fun a b => a.event_num ≠ b.event_num)
      (addEvents events newEvents) := by
  unfold addEvents
  induction newEvents generalizing events with
  | nil => exact h
  | cons e rest ih =>
    simp only [List.foldl_cons]
    refine ih ?_
    split
    · exact h
    · rename_i hex
      rw [List.pairwise_append]
      refine ⟨h, List.pairwise_singleton _ _, ?_⟩
      intro a ha b hb
      simp only [List.mem_singleton] at hb
      subst hb
      simp only [eventExists, List.any_eq_true, not_exists, Bool.not_eq_true] at hex
      intro hab
      exact hex a ⟨ha, by simp [hab]⟩

/-- Claim C10: event storage deduplicates by sequence number.  Adds
never mutate or reorder prior entries (the old list stays a prefix), a
single add appends exactly when the sequence number is absent and is
silently ignored otherwise, and after any sequence of addEvents calls
starting from an empty store all stored events carry pairwise distinct
sequence numbers. -/
theorem c10_storage_dedup :
    (∀ events newEvents : List Event, events <+: addEvents events newEvents) ∧
    (∀ (events : List Event) (e : Event),
      addEvents events [e] =
        if eventExists events e.event_num then events else events ++ [e]) ∧
    (∀ batches : List (List Event),
      List.Pairwise (fun a b => a.event_num ≠ b.event_num)
        (batches.foldl addEvents [])) := by
  refine ⟨addEvents_front_unchanged, fun events e => rfl, ?_⟩
  intro batches
  have key : ∀ (bs : List (List Event)) (acc : List Event),
      List.Pairwise (fun a b => a.event_num ≠ b.event_num) acc →
      List.Pairwise (fun a b => a.event_num ≠ b.event_num) (bs.foldl addEvents acc) := by
    intro bs
    induction bs with
    | nil => intro acc h; exact h
    | cons b rest ih =>
      intro acc h
      exact ih _ (addEvents_pairwise b h)
  exact key batches [] (List.Pairwise.nil)
